import Mathlib

/-!
Verification of the incremental search/autocomplete interaction engine of the
Runaway dashboard repository.

The development shallowly embeds the two source artifacts the claims are about:

* src/components/Search.tsx — the Search component: debounce scheduler,
  request arbiter (AbortController handling), result reconciler and
  suggestion store. The component is modelled as an explicit state machine
  (Model) driven by timed events (Event): keystrokes, debounce-timer firings,
  network deliveries, picks, blur and focus. The JavaScript runtime is
  single-threaded, so an interleaved trace of atomic events is a faithful
  abstraction; aborting an AbortController before a fetch continuation has
  run makes that continuation observe an AbortError, which the deliver step
  reflects through the aborted flag on the request record.

* src/app/api/geocode/route.ts — the geocode proxy endpoint: query
  validation, count clamping, upstream normalization and the 400/404/502/200
  status taxonomy, modelled as a pure function of the request parameters and
  the upstream response.
-/

set_option linter.unusedVariables false

/-- A normalized geocoded place, the Place type shared by Search.tsx and the
geocode route. The TypeScript field region has type string or null (or is
absent); null and undefined are modelled together as none, a present string
(possibly empty) as some. -/
structure Place where
  city : String
  region : Option String
  country : String
  latitude : ℚ
  longitude : ℚ
  timezone : String
deriving DecidableEq

/-- One suggestion fetch issued by the Search component on a debounce firing:
its AbortController identity (id, assigned from a monotone counter), the query
string captured by the debounce closure, whether its controller has been
aborted, and whether its continuation has already run (delivered). -/
structure Req where
  id : ℕ
  query : String
  aborted : Bool
  delivered : Bool
deriving DecidableEq

/-- The reconciled view state of the Search component, the SuggestionState of
the specification: results, isOpen, isLoading, error. -/
structure SuggState where
  results : List Place
  isOpen : Bool
  isLoading : Bool
  error : Option String
deriving DecidableEq

/-- The outcome carried by a settled suggestion fetch: an HTTP response with a
status code and a decoded JSON body, or a transport-level failure (the
non-abort branch of the catch in Search.tsx). -/
inductive Outcome where
  | http (status : ℕ) (data : List Place)
  | netError
deriving DecidableEq

/-- The full state of one Search component instance: the controlled input
value, the four SuggestionState fields, the pending debounce timer (captured
query and absolute deadline), the list of issued fetches, the abortRef content
(id of the current controller), the id counter, the log of onSelect
invocations, and the current time. -/
structure Model where
  input : String
  results : List Place
  isOpen : Bool
  isLoading : Bool
  error : Option String
  timer : Option (String × ℕ)
  inflight : List Req
  current : Option ℕ
  nextId : ℕ
  picked : List Place
  now : ℕ
deriving DecidableEq

/-- The SuggestionState projection of a component state. -/
def Model.sugg (s : Model) : SuggState :=
  ⟨s.results, s.isOpen, s.isLoading, s.error⟩

/-- The result reconciliation table of Search.tsx lines 77-121: the branch on
res.status 400, res.status 404, res.ok, and the non-abort catch. Each branch
fully determines all four SuggestionState fields. -/
def reconcile : Outcome → SuggState
  | .netError => ⟨[], true, false, some "Network error. Please try again."⟩
  | .http status data =>
    if status = 400 then ⟨[], false, false, some "Type at least 2 letters."⟩
    else if status = 404 then ⟨[], true, false, none⟩
    else if 200 ≤ status ∧ status ≤ 299 then ⟨data, true, false, none⟩
    else ⟨[], true, false, some ("Search failed (" ++ toString status ++ ").")⟩

/-- The effect of abortRef.current?.abort() on one request record: the request
whose controller is held in abortRef becomes aborted, others are untouched. -/
def abortIf (cur : Option ℕ) (r : Req) : Req :=
  if some r.id = cur then { r with aborted := true } else r

/-- The effect of abortRef.current?.abort() on the list of issued fetches. -/
def abortAll (cur : Option ℕ) (l : List Req) : List Req :=
  l.map (abortIf cur)

/-- Marks the fetch with the given controller id as having run its
continuation. -/
def markDelivered (id : ℕ) (l : List Req) : List Req :=
  l.map (fun r => if r.id = id then { r with delivered := true } else r)

/-- The JavaScript String.prototype.trim used on the query: removes leading
and trailing whitespace. -/
def jsTrim (s : String) : String :=
  ⟨((s.data.dropWhile Char.isWhitespace).reverse.dropWhile Char.isWhitespace).reverse⟩

/-- The body of the useEffect of Search.tsx lines 50-129, run when the input
value changes to q: the cleanup of the previous effect clears the pending
debounce timer and aborts the current controller, then the short-input guard
either clears SuggestionState (trimmed length below 2) or sets
isLoading=true, error=null and starts a 250 ms debounce timer. -/
def inputEffect (s : Model) (q : String) : Model :=
  let s1 : Model :=
    { s with input := q, timer := none, inflight := abortAll s.current s.inflight }
  if (jsTrim q).length < 2 then
    { s1 with results := [], isOpen := false, isLoading := false, error := none }
  else
    { s1 with isLoading := true, error := none, timer := some (q, s.now + 250) }

/-- A keystroke at time t changing the input to q. Events carrying a time
before the current clock are no-ops, and a set of the input to its current
value does not re-render, hence does not re-run the effect. -/
def stepKeystroke (s : Model) (t : ℕ) (q : String) : Model :=
  if t < s.now then s
  else if q = s.input then { s with now := t }
  else inputEffect { s with now := t } q

/-- The debounce timer callback of Search.tsx lines 65-122 firing at time t:
a setTimeout callback cannot run before its deadline; on firing it aborts the
in-flight request, installs a fresh AbortController and issues a fetch for the
captured query. -/
def stepTimerFire (s : Model) (t : ℕ) : Model :=
  match s.timer with
  | none => s
  | some (q, d) =>
    if t < s.now ∨ t < d then s
    else
      { s with now := t, timer := none,
               inflight := abortAll s.current s.inflight ++ [⟨s.nextId, q, false, false⟩],
               current := some s.nextId, nextId := s.nextId + 1 }

/-- Writes a reconciled SuggestionState into the component state. -/
def applyOutcome (s : Model) (o : SuggState) : Model :=
  { s with results := o.results, isOpen := o.isOpen,
           isLoading := o.isLoading, error := o.error }

/-- The continuation of the fetch with controller id running at time t with
outcome out: if the controller was aborted before the continuation observed
the response, the await rejects with an AbortError and the catch returns
without touching state (Search.tsx lines 107-116); otherwise the
reconciliation table is applied. A fetch whose continuation has already run
cannot run again. -/
def stepDeliver (s : Model) (t : ℕ) (id : ℕ) (out : Outcome) : Model :=
  if t < s.now then s
  else
    match s.inflight.find? (fun r => r.id == id) with
    | none => s
    | some r =>
      if r.delivered then s
      else if r.aborted then { s with now := t, inflight := markDelivered id s.inflight }
      else applyOutcome { s with now := t, inflight := markDelivered id s.inflight }
                        (reconcile out)

/-- formatPlace of Search.tsx lines 132-133: the city, region (when neither
null nor undefined) and country, with falsy components removed by
filter(Boolean) — in particular empty strings are removed — joined by a comma
and a space. -/
def formatPlace (p : Place) : String :=
  String.intercalate ", " (([p.city] ++ p.region.toList ++ [p.country]).filter (fun x => !x.isEmpty))

/-- The label format asserted by the specification sentence for handlePick:
city, then region whenever it is neither null nor undefined, then country,
joined by a comma and a space. Written from the words of the claim, for
comparison with formatPlace, which follows the source. -/
def specFormatLabel (p : Place) : String :=
  String.intercalate ", " ([p.city] ++ p.region.toList ++ [p.country])

/-- handlePick of Search.tsx lines 136-140 at time t: sets the input to the
formatted label (re-running the input effect when this changes the input),
closes the dropdown, and invokes the onSelect callback with the picked place
(recorded in the picked log). -/
def stepPick (s : Model) (t : ℕ) (p : Place) : Model :=
  if t < s.now then s
  else
    let label := formatPlace p
    let s1 := if label = s.input then { s with now := t }
              else inputEffect { s with now := t } label
    { s1 with isOpen := false, picked := s1.picked ++ [p] }

/-- The deferred blur close of Search.tsx lines 145-148 firing at time t. -/
def stepBlurClose (s : Model) (t : ℕ) : Model :=
  if t < s.now then s else { s with now := t, isOpen := false }

/-- handleFocus of Search.tsx lines 149-152 at time t: reopens the dropdown
when results are present. -/
def stepFocus (s : Model) (t : ℕ) : Model :=
  if t < s.now then s
  else { s with now := t, isOpen := if s.results.isEmpty then s.isOpen else true }

/-- The events driving one Search component instance. -/
inductive Event where
  | keystroke (t : ℕ) (q : String)
  | timerFire (t : ℕ)
  | deliver (t : ℕ) (id : ℕ) (out : Outcome)
  | pick (t : ℕ) (p : Place)
  | blurClose (t : ℕ)
  | focus (t : ℕ)
deriving DecidableEq

/-- The transition function of the Search component state machine. -/
def step (s : Model) : Event → Model
  | .keystroke t q => stepKeystroke s t q
  | .timerFire t => stepTimerFire s t
  | .deliver t id out => stepDeliver s t id out
  | .pick t p => stepPick s t p
  | .blurClose t => stepBlurClose s t
  | .focus t => stepFocus s t

/-- Runs a trace of events from a state. -/
def runTrace (s : Model) (tr : List Event) : Model :=
  tr.foldl step s

/-- The initial state of a freshly mounted Search component: empty input,
empty results, closed dropdown, not loading, no error, no timer, no issued
fetch, empty abortRef. -/
def init : Model :=
  ⟨"", [], false, false, none, none, [], none, 0, [], 0⟩

/-- A state is reachable when some event trace leads to it from the initial
state. -/
def Reachable (s : Model) : Prop :=
  ∃ tr : List Event, runTrace init tr = s

/-- The boolean side conditions describing a burst of keystrokes relative to a
starting state: each keystroke happens no earlier than the clock, actually
mutates the input, leaves at least 2 trimmed characters, and the next
keystroke of the burst comes strictly less than 250 ms later. -/
def burstOK : Model → List (ℕ × String) → Bool
  | _, [] => true
  | s, (t, q) :: rest =>
    decide (s.now ≤ t) && decide (q ≠ s.input) && decide (2 ≤ (jsTrim q).length) &&
    (match rest.head? with
     | none => true
     | some (t2, _) => decide (t2 < t + 250)) &&
    burstOK (stepKeystroke s t q) rest

/-- Runs a burst of keystrokes. -/
def runBurst : Model → List (ℕ × String) → Model
  | s, [] => s
  | s, (t, q) :: rest => runBurst (stepKeystroke s t q) rest

/-- The invariant maintained by every reachable state of the Search component:
issued fetches carry strictly increasing controller ids below the counter;
every issued fetch other than the one held in abortRef has been aborted;
isLoading can be true only while a debounce timer is pending or the current
controller belongs to an unaborted, undelivered fetch; and a non-null error
comes with empty results. -/
def SearchInv (s : Model) : Prop :=
  s.inflight.Pairwise (fun a b => a.id < b.id) ∧
  (∀ r ∈ s.inflight, r.id < s.nextId) ∧
  (∀ r ∈ s.inflight, some r.id = s.current ∨ r.aborted = true) ∧
  (s.isLoading = true →
    s.timer ≠ none ∨
    ∃ r ∈ s.inflight, some r.id = s.current ∧ r.aborted = false ∧ r.delivered = false) ∧
  (s.error ≠ none → s.results = [])

/-- The result row returned upstream by Open-Meteo, as read by the geocode
route; admin1, admin2 and timezone may be null or absent. -/
structure OpenMeteoResult where
  name : String
  admin1 : Option String
  admin2 : Option String
  country : String
  latitude : ℚ
  longitude : ℚ
  timezone : Option String
deriving DecidableEq

/-- The normalization of route.ts lines 90-97: region picks admin1 when
present, else admin2, else null; timezone defaults to UTC. -/
def normalizePlace (r : OpenMeteoResult) : Place :=
  { city := r.name
  , region := r.admin1.orElse (fun _ => r.admin2)
  , country := r.country
  , latitude := r.latitude
  , longitude := r.longitude
  , timezone := r.timezone.getD "UTC" }

/-- The upstream fetch seen by the geocode route: either a non-ok response
with its status, or an ok response whose results field decodes to a list
(none when the field is missing or not an array). -/
inductive Upstream where
  | notOk (status : ℕ)
  | ok (rows : Option (List OpenMeteoResult))
deriving DecidableEq

/-- A response produced by the geocode route: an error payload with a status,
or the normalized places with status 200. -/
inductive GeoResponse where
  | err (status : ℕ) (code : String) (message : String)
  | ok (places : List Place)
deriving DecidableEq

/-- The HTTP status of a geocode route response. -/
def GeoResponse.status : GeoResponse → ℕ
  | .err s _ _ => s
  | .ok _ => 200

/-- GET of route.ts lines 35-109 as a function of the trimmed-on-read q
parameter (none when absent) and the upstream response: 400 on a missing or
short query, 502 on a non-ok upstream, 404 when normalization yields zero
places, else 200 with the normalized places. -/
def geocodeGET (q : Option String) (upstream : Upstream) : GeoResponse :=
  match q with
  | none => .err 400 "bad_request" "Missing ?q=<place> or must be at least 2 characters."
  | some raw =>
    let tq := jsTrim raw
    if tq.length < 2 then
      .err 400 "bad_request" "Missing ?q=<place> or must be at least 2 characters."
    else
      match upstream with
      | .notOk s => .err 502 "upstream_failed" ("Geocoding failed: " ++ toString s)
      | .ok rows =>
        let places := (rows.getD []).map normalizePlace
        if places.isEmpty then
          .err 404 "not_found" ("No places for \"" ++ tq ++ "\"")
        else .ok places

/-- The count clamping of route.ts lines 41-42, Math.max(1, Math.min(10,
Number(countFound) or-else 5)). The JavaScript Number conversion of the count
parameter is abstracted: the argument is none when the count parameter is
absent (so countFound falls back to the string 5), some none when the given
string converts to NaN, and some (some v) when it converts to the numeric
value v. The or-else replaces the falsy values NaN and 0 by 5. -/
def effectiveCount (countParam : Option (Option ℚ)) : ℚ :=
  let n : Option ℚ := countParam.getD (some 5)
  let m : ℚ :=
    match n with
    | none => 5
    | some v => if v = 0 then 5 else v
  max 1 (min 10 m)

/-- The Paris place of the specification example. -/
def parisPlace : Place :=
  ⟨"Paris", some "Île-de-France", "France", 48.8566, 2.3522, "Europe/Paris"⟩

/-- A place whose region is the empty string rather than null: present in the
Place type, and producible by the geocode route from an upstream row whose
admin1 is the empty string. -/
def emptyRegionPlace : Place :=
  ⟨"Paris", some "", "France", 1, 2, "UTC"⟩

theorem abortIf_id (cur : Option ℕ) (r : Req) : (abortIf cur r).id = r.id := by
  unfold abortIf; split <;> rfl

theorem abortIf_query (cur : Option ℕ) (r : Req) : (abortIf cur r).query = r.query := by
  unfold abortIf; split <;> rfl

theorem abortIf_delivered (cur : Option ℕ) (r : Req) :
    (abortIf cur r).delivered = r.delivered := by
  unfold abortIf; split <;> rfl

theorem abortAll_map_query (cur : Option ℕ) (l : List Req) :
    (abortAll cur l).map Req.query = l.map Req.query := by
  unfold abortAll
  rw [List.map_map]
  exact List.map_congr_left (fun a _ => abortIf_query cur a)

theorem pairwise_abortAll {cur : Option ℕ} {l : List Req}
    (hp : l.Pairwise (fun a b => a.id < b.id)) :
    (abortAll cur l).Pairwise (fun a b => a.id < b.id) := by
  unfold abortAll
  rw [List.pairwise_map]
  exact hp.imp (fun h => by rwa [abortIf_id, abortIf_id])

theorem ids_lt_abortAll {cur : Option ℕ} {l : List Req} {n : ℕ}
    (h : ∀ r ∈ l, r.id < n) : ∀ r ∈ abortAll cur l, r.id < n := by
  intro r2 hr2
  rcases List.mem_map.mp hr2 with ⟨r, hr, rfl⟩
  rw [abortIf_id]
  exact h r hr

theorem abortAll_all_aborted {cur : Option ℕ} {l : List Req}
    (h3 : ∀ r ∈ l, some r.id = cur ∨ r.aborted = true) :
    ∀ r ∈ abortAll cur l, r.aborted = true := by
  intro r2 hr2
  rcases List.mem_map.mp hr2 with ⟨r, hr, rfl⟩
  unfold abortIf
  split
  · rfl
  next hne =>
    rcases h3 r hr with hc | ha
    · exact absurd hc hne
    · exact ha

theorem markDelivered_map_query (i : ℕ) (l : List Req) :
    (markDelivered i l).map Req.query = l.map Req.query := by
  unfold markDelivered
  rw [List.map_map]
  apply List.map_congr_left
  intro a _
  by_cases h : a.id = i <;> simp [h]

theorem pairwise_markDelivered {i : ℕ} {l : List Req}
    (hp : l.Pairwise (fun a b => a.id < b.id)) :
    (markDelivered i l).Pairwise (fun a b => a.id < b.id) := by
  unfold markDelivered
  rw [List.pairwise_map]
  refine hp.imp (fun {a b} h => ?_)
  by_cases ha : a.id = i <;> by_cases hb : b.id = i <;> simp [ha, hb] <;> omega

theorem ids_lt_markDelivered {i : ℕ} {l : List Req} {n : ℕ}
    (h : ∀ r ∈ l, r.id < n) : ∀ r ∈ markDelivered i l, r.id < n := by
  intro r2 hr2
  rcases List.mem_map.mp hr2 with ⟨r, hr, rfl⟩
  by_cases hi : r.id = i <;> simp [hi] <;> [skip; exact h r hr]
  rw [← hi]; exact h r hr

theorem reconcile_isLoading (o : Outcome) : (reconcile o).isLoading = false := by
  cases o with
  | netError => rfl
  | http s d =>
    simp only [reconcile]
    split_ifs <;> rfl

theorem reconcile_error_results (o : Outcome) :
    (reconcile o).error ≠ none → (reconcile o).results = [] := by
  cases o with
  | netError => intro _; rfl
  | http s d =>
    simp only [reconcile]
    split_ifs <;> intro h
    · rfl
    · rfl
    · exact absurd rfl h
    · rfl

theorem ids_unique {l : List Req} (hp : l.Pairwise (fun a b => a.id < b.id)) :
    ∀ x ∈ l, ∀ y ∈ l, x.id = y.id → x = y := by
  induction l with
  | nil => intro x hx; exact absurd hx (List.not_mem_nil x)
  | cons a l ih =>
    rcases List.pairwise_cons.mp hp with ⟨ha, hl⟩
    intro x hx y hy hxy
    rcases List.mem_cons.mp hx with rfl | hx2
    · rcases List.mem_cons.mp hy with rfl | hy2
      · rfl
      · exact absurd hxy (Nat.ne_of_lt (ha y hy2))
    · rcases List.mem_cons.mp hy with rfl | hy2
      · exact absurd hxy.symm (Nat.ne_of_lt (ha x hx2))
      · exact ih hl x hx2 y hy2 hxy

theorem stepKeystroke_long {s : Model} {t : ℕ} {q : String}
    (ht : s.now ≤ t) (hq : q ≠ s.input) (hlen : 2 ≤ (jsTrim q).length) :
    stepKeystroke s t q =
      { s with input := q, now := t,
               inflight := abortAll s.current s.inflight,
               isLoading := true, error := none,
               timer := some (q, t + 250) } := by
  unfold stepKeystroke inputEffect
  rw [if_neg (Nat.not_lt.mpr ht), if_neg hq, if_neg (Nat.not_lt.mpr hlen)]

theorem stepKeystroke_short {s : Model} {t : ℕ} {q : String}
    (ht : s.now ≤ t) (hq : q ≠ s.input) (hlen : (jsTrim q).length < 2) :
    stepKeystroke s t q =
      { s with input := q, now := t,
               inflight := abortAll s.current s.inflight,
               results := [], isOpen := false, isLoading := false, error := none,
               timer := none } := by
  unfold stepKeystroke inputEffect
  rw [if_neg (Nat.not_lt.mpr ht), if_neg hq, if_pos hlen]

theorem mark_preserves_current_or_aborted {i : ℕ} {l : List Req} {cur : Option ℕ}
    (h3 : ∀ r ∈ l, some r.id = cur ∨ r.aborted = true) :
    ∀ r ∈ markDelivered i l, some r.id = cur ∨ r.aborted = true := by
  intro r2 hr2
  rcases List.mem_map.mp hr2 with ⟨r0, hr0, rfl⟩
  by_cases hi : r0.id = i
  · simpa [hi] using h3 r0 hr0
  · simpa [hi] using h3 r0 hr0

theorem error_results_step (s : Model) (e : Event)
    (h : s.error ≠ none → s.results = []) :
    (step s e).error ≠ none → (step s e).results = [] := by
  cases e with
  | keystroke t q =>
    show (stepKeystroke s t q).error ≠ none → (stepKeystroke s t q).results = []
    unfold stepKeystroke
    split
    · exact h
    · split
      · exact h
      · simp only [inputEffect]
        split
        · intro _; rfl
        · intro hc; exact absurd rfl hc
  | timerFire t =>
    show (stepTimerFire s t).error ≠ none → (stepTimerFire s t).results = []
    unfold stepTimerFire
    split
    · exact h
    · split
      · exact h
      · exact h
  | deliver t id out =>
    show (stepDeliver s t id out).error ≠ none → (stepDeliver s t id out).results = []
    unfold stepDeliver
    split
    · exact h
    · split
      · exact h
      · split
        · exact h
        · split
          · exact h
          · intro he
            have he2 : (reconcile out).error ≠ none := he
            show (reconcile out).results = []
            exact reconcile_error_results out he2
  | pick t p =>
    show (stepPick s t p).error ≠ none → (stepPick s t p).results = []
    simp only [stepPick]
    split
    · exact h
    · split
      · exact h
      · simp only [inputEffect]
        split
        · intro _; rfl
        · intro hc; exact absurd rfl hc
  | blurClose t =>
    show (stepBlurClose s t).error ≠ none → (stepBlurClose s t).results = []
    unfold stepBlurClose
    split
    · exact h
    · exact h
  | focus t =>
    show (stepFocus s t).error ≠ none → (stepFocus s t).results = []
    unfold stepFocus
    split
    · exact h
    · exact h

theorem searchInv_inputEffect {s : Model} (h : SearchInv s) (q : String) :
    SearchInv (inputEffect s q) := by
  obtain ⟨h1, h2, h3, h4, h5⟩ := h
  simp only [inputEffect]
  split
  · refine ⟨pairwise_abortAll h1, ids_lt_abortAll h2, ?_, ?_, ?_⟩
    · intro r hr
      exact Or.inr (abortAll_all_aborted h3 r hr)
    · intro hl
      exact Bool.noConfusion hl
    · intro _
      rfl
  · refine ⟨pairwise_abortAll h1, ids_lt_abortAll h2, ?_, ?_, ?_⟩
    · intro r hr
      exact Or.inr (abortAll_all_aborted h3 r hr)
    · intro _
      exact Or.inl (by simp)
    · intro he
      exact absurd rfl he

theorem searchInv_step {s : Model} (h : SearchInv s) (e : Event) :
    SearchInv (step s e) := by
  obtain ⟨h1, h2, h3, h4, h5⟩ := h
  cases e with
  | keystroke t q =>
    show SearchInv (stepKeystroke s t q)
    unfold stepKeystroke
    split
    · exact ⟨h1, h2, h3, h4, h5⟩
    · split
      · exact ⟨h1, h2, h3, h4, h5⟩
      · exact @searchInv_inputEffect { s with now := t } ⟨h1, h2, h3, h4, h5⟩ q
  | timerFire t =>
    show SearchInv (stepTimerFire s t)
    unfold stepTimerFire
    split
    · exact ⟨h1, h2, h3, h4, h5⟩
    next q d heq =>
      split
      · exact ⟨h1, h2, h3, h4, h5⟩
      · refine ⟨?_, ?_, ?_, ?_, h5⟩
        · refine List.pairwise_append.mpr
            ⟨pairwise_abortAll h1, List.pairwise_singleton _ _, ?_⟩
          intro a ha b hb
          have hb2 := List.mem_singleton.mp hb
          subst hb2
          exact ids_lt_abortAll h2 a ha
        · intro r hr
          rcases List.mem_append.mp hr with hra | hrb
          · exact Nat.lt_succ_of_lt (ids_lt_abortAll h2 r hra)
          · have hb2 := List.mem_singleton.mp hrb
            subst hb2
            exact Nat.lt_succ_self _
        · intro r hr
          rcases List.mem_append.mp hr with hra | hrb
          · exact Or.inr (abortAll_all_aborted h3 r hra)
          · have hb2 := List.mem_singleton.mp hrb
            subst hb2
            exact Or.inl rfl
        · intro _
          right
          refine ⟨⟨s.nextId, q, false, false⟩, ?_, rfl, rfl, rfl⟩
          exact List.mem_append.mpr (Or.inr (List.mem_singleton.mpr rfl))
  | deliver t id out =>
    show SearchInv (stepDeliver s t id out)
    unfold stepDeliver
    split
    · exact ⟨h1, h2, h3, h4, h5⟩
    · split
      · exact ⟨h1, h2, h3, h4, h5⟩
      next r heq =>
        have hrid : r.id = id := by simpa using List.find?_some heq
        have hrmem : r ∈ s.inflight := List.mem_of_find?_eq_some heq
        split
        · exact ⟨h1, h2, h3, h4, h5⟩
        next hdel =>
          split
          next hab =>
            refine ⟨pairwise_markDelivered h1, ids_lt_markDelivered h2,
                    mark_preserves_current_or_aborted h3, ?_, h5⟩
            intro hl
            rcases h4 hl with htimer | ⟨w, hw, hwc, hwa, hwd⟩
            · exact Or.inl htimer
            · right
              have hwne : w.id ≠ id := by
                intro hwe
                have hwr : w = r := ids_unique h1 w hw r hrmem (by rw [hwe, hrid])
                rw [hwr, hab] at hwa
                exact absurd hwa (by decide)
              exact ⟨w, List.mem_map.mpr ⟨w, hw, if_neg hwne⟩, hwc, hwa, hwd⟩
          next hab =>
            refine ⟨pairwise_markDelivered h1, ids_lt_markDelivered h2,
                    mark_preserves_current_or_aborted h3, ?_, ?_⟩
            · intro hl
              have hl2 : (reconcile out).isLoading = true := hl
              rw [reconcile_isLoading] at hl2
              exact absurd hl2 (by decide)
            · intro he
              have he2 : (reconcile out).error ≠ none := he
              show (reconcile out).results = []
              exact reconcile_error_results out he2
  | pick t p =>
    show SearchInv (stepPick s t p)
    simp only [stepPick]
    split
    · exact ⟨h1, h2, h3, h4, h5⟩
    · split
      · exact ⟨h1, h2, h3, h4, h5⟩
      · obtain ⟨g1, g2, g3, g4, g5⟩ :=
          @searchInv_inputEffect { s with now := t } ⟨h1, h2, h3, h4, h5⟩ (formatPlace p)
        exact ⟨g1, g2, g3, g4, g5⟩
  | blurClose t =>
    show SearchInv (stepBlurClose s t)
    unfold stepBlurClose
    split
    · exact ⟨h1, h2, h3, h4, h5⟩
    · exact ⟨h1, h2, h3, h4, h5⟩
  | focus t =>
    show SearchInv (stepFocus s t)
    unfold stepFocus
    split
    · exact ⟨h1, h2, h3, h4, h5⟩
    · exact ⟨h1, h2, h3, h4, h5⟩

theorem searchInv_runTrace {s : Model} (h : SearchInv s) (tr : List Event) :
    SearchInv (runTrace s tr) := by
  induction tr generalizing s with
  | nil => exact h
  | cons e tr ih => exact ih (searchInv_step h e)

theorem searchInv_init : SearchInv init := by
  refine ⟨List.Pairwise.nil, ?_, ?_, ?_, ?_⟩
  · intro r hr
    exact absurd hr (List.not_mem_nil r)
  · intro r hr
    exact absurd hr (List.not_mem_nil r)
  · intro hl
    exact absurd hl (by decide)
  · intro he
    exact absurd rfl he

theorem searchInv_reachable {s : Model} (h : Reachable s) : SearchInv s := by
  rcases h with ⟨tr, rfl⟩
  exact searchInv_runTrace searchInv_init tr

theorem stepDeliver_applies {s : Model} {t id : ℕ} {r : Req} (out : Outcome)
    (hfind : s.inflight.find? (fun x => x.id == id) = some r)
    (hdel : r.delivered = false) (hab : r.aborted = false) (ht : s.now ≤ t) :
    (stepDeliver s t id out).sugg = reconcile out ∧
    (stepDeliver s t id out).current = s.current := by
  unfold stepDeliver
  split
  next hts => exact absurd hts (by omega)
  · split
    next hnone => rw [hfind] at hnone; cases hnone
    next r2 heq =>
      rw [hfind] at heq
      injection heq with heq2
      subst heq2
      split
      next hdel2 => rw [hdel] at hdel2; exact Bool.noConfusion hdel2
      · split
        next hab2 => rw [hab] at hab2; exact Bool.noConfusion hab2
        · exact ⟨rfl, rfl⟩

theorem stepDeliver_stale {s : Model} (hInv : SearchInv s) {c : ℕ}
    (hc : s.current = some c) (t j : ℕ) (o : Outcome) (hj : j ≠ c) :
    (stepDeliver s t j o).sugg = s.sugg ∧ (stepDeliver s t j o).current = s.current := by
  obtain ⟨h1, h2, h3, h4, h5⟩ := hInv
  unfold stepDeliver
  split
  · exact ⟨rfl, rfl⟩
  · split
    · exact ⟨rfl, rfl⟩
    next r heq =>
      have hrid : r.id = j := by simpa using List.find?_some heq
      have hrmem : r ∈ s.inflight := List.mem_of_find?_eq_some heq
      have hab : r.aborted = true := by
        rcases h3 r hrmem with hcur | ha
        · rw [hrid, hc] at hcur
          exact absurd (Option.some.inj hcur) hj
        · exact ha
      split
      · exact ⟨rfl, rfl⟩
      · exact ⟨rfl, rfl⟩

theorem runTrace_stale_delivers {c : ℕ} (tr2 : List Event) :
    ∀ s : Model, SearchInv s → s.current = some c →
    (∀ e ∈ tr2, ∃ t j o, e = Event.deliver t j o ∧ j < c) →
    (runTrace s tr2).sugg = s.sugg := by
  induction tr2 with
  | nil =>
    intro s _ _ _
    rfl
  | cons e tr ih =>
    intro s hInv hc htr
    rcases htr e (List.mem_cons_self e tr) with ⟨t, j, o, rfl, hj⟩
    have hstale := stepDeliver_stale hInv hc t j o (Nat.ne_of_lt hj)
    have hrun : runTrace s (Event.deliver t j o :: tr) = runTrace (stepDeliver s t j o) tr := rfl
    rw [hrun]
    have hInv2 : SearchInv (stepDeliver s t j o) := searchInv_step hInv (Event.deliver t j o)
    rw [ih (stepDeliver s t j o) hInv2 (by rw [hstale.2, hc])
        (fun e2 he2 => htr e2 (List.mem_cons_of_mem _ he2))]
    exact hstale.1

/-- C1: last-issued-wins. In any reachable state s1, let the fetch with
controller id bid be undelivered and unaborted (by the component invariant it
is then the request held in abortRef, the most recently issued one, request
B). When its outcome oB is delivered, and afterwards any number of responses
of strictly earlier-issued requests (smaller controller ids, request A among
them) arrive — which covers the case where transport-level cancellation of A
failed and its response still comes back — the final SuggestionState is
exactly the reconciliation of oB alone: B wins regardless of arrival order,
because every earlier-issued request was aborted when B was issued, so its
late continuation runs into the AbortError branch and mutates nothing. -/
theorem last_issued_wins (s1 : Model) (hreach : Reachable s1)
    (t bid : ℕ) (r : Req) (oB : Outcome) (tr2 : List Event)
    (hfind : s1.inflight.find? (fun x => x.id == bid) = some r)
    (hab : r.aborted = false) (hdel : r.delivered = false) (ht : s1.now ≤ t)
    (htr2 : ∀ e ∈ tr2, ∃ t2 j o, e = Event.deliver t2 j o ∧ j < r.id) :
    (runTrace (step s1 (Event.deliver t bid oB)) tr2).sugg = reconcile oB := by
  have hInv := searchInv_reachable hreach
  have hrmem : r ∈ s1.inflight := List.mem_of_find?_eq_some hfind
  have hcur : s1.current = some r.id := by
    obtain ⟨h1, h2, h3, h4, h5⟩ := hInv
    rcases h3 r hrmem with hcu | ha
    · exact hcu.symm
    · rw [hab] at ha
      exact Bool.noConfusion ha
  have happly := stepDeliver_applies oB hfind hdel hab ht
  have hInv2 : SearchInv (stepDeliver s1 t bid oB) :=
    searchInv_step hInv (Event.deliver t bid oB)
  have hc2 : (stepDeliver s1 t bid oB).current = some r.id := by
    rw [happly.2, hcur]
  have hfinal := runTrace_stale_delivers tr2 (stepDeliver s1 t bid oB) hInv2 hc2 htr2
  show (runTrace (stepDeliver s1 t bid oB) tr2).sugg = reconcile oB
  rw [hfinal, happly.1]

/-- Witness for last_issued_wins: request 0 is issued for the query Pa,
superseded by request 1 for the query Par; request 1 resolves first with a
Paris row, then the cancelled request 0 still resolves with a Nice row; the
final SuggestionState is the reconciliation of the outcome of request 1. -/
theorem last_issued_wins_witness :
    (runTrace (step (runTrace init
        [Event.keystroke 0 "Pa", Event.timerFire 250,
         Event.keystroke 300 "Par", Event.timerFire 550])
        (Event.deliver 600 1 (Outcome.http 200 [⟨"Paris", some "IDF", "France", 1, 2, "UTC"⟩])))
        [Event.deliver 700 0 (Outcome.http 200 [⟨"Nice", none, "France", 3, 4, "UTC"⟩])]).sugg
      = reconcile (Outcome.http 200 [⟨"Paris", some "IDF", "France", 1, 2, "UTC"⟩]) := by
  refine last_issued_wins _
      ⟨[Event.keystroke 0 "Pa", Event.timerFire 250,
        Event.keystroke 300 "Par", Event.timerFire 550], rfl⟩
      600 1 ⟨1, "Par", false, false⟩ _ _ (by decide) (by decide) (by decide) (by decide) ?_
  intro e he
  rw [List.mem_singleton] at he
  subst he
  exact ⟨700, 0, Outcome.http 200 [⟨"Nice", none, "France", 3, 4, "UTC"⟩], rfl, by decide⟩

theorem runBurst_append (l1 l2 : List (ℕ × String)) :
    ∀ s : Model, runBurst s (l1 ++ l2) = runBurst (runBurst s l1) l2 := by
  induction l1 with
  | nil => intro s; rfl
  | cons a l1 ih =>
    intro s
    obtain ⟨t, q⟩ := a
    exact ih (stepKeystroke s t q)

theorem burstOK_append (l1 l2 : List (ℕ × String)) :
    ∀ s : Model, burstOK s (l1 ++ l2) = true →
      burstOK s l1 = true ∧ burstOK (runBurst s l1) l2 = true := by
  induction l1 with
  | nil => intro s h; exact ⟨rfl, h⟩
  | cons a l1 ih =>
    intro s h
    obtain ⟨t, q⟩ := a
    simp only [List.cons_append, burstOK, Bool.and_eq_true] at h
    obtain ⟨⟨⟨⟨hA, hB⟩, hC⟩, hM⟩, hrec⟩ := h
    rcases ih (stepKeystroke s t q) hrec with ⟨ih1, ih2⟩
    constructor
    · simp only [burstOK, Bool.and_eq_true]
      refine ⟨⟨⟨⟨hA, hB⟩, hC⟩, ?_⟩, ih1⟩
      cases l1 with
      | nil => rfl
      | cons c l1b =>
        obtain ⟨t3, q3⟩ := c
        simpa using hM
    · exact ih2

theorem runBurst_spec (b : List (ℕ × String)) :
    ∀ (s0 : Model) (tlast : ℕ) (qlast : String),
      burstOK s0 b = true → b.getLast? = some (tlast, qlast) →
      (runBurst s0 b).nextId = s0.nextId ∧
      (runBurst s0 b).inflight.map Req.query = s0.inflight.map Req.query ∧
      (runBurst s0 b).timer = some (qlast, tlast + 250) ∧
      (runBurst s0 b).now = tlast := by
  induction b with
  | nil => intro s0 tlast qlast _ hlast; cases hlast
  | cons a b ih =>
    intro s0 tlast qlast hok hlast
    obtain ⟨t, q⟩ := a
    simp only [burstOK, Bool.and_eq_true, decide_eq_true_eq] at hok
    obtain ⟨⟨⟨⟨hA, hB⟩, hC⟩, hM⟩, hrec⟩ := hok
    have hks := stepKeystroke_long hA hB hC
    cases b with
    | nil =>
      rw [List.getLast?_singleton] at hlast
      injection hlast with h2
      obtain ⟨rfl, rfl⟩ : t = tlast ∧ q = qlast :=
        ⟨congrArg Prod.fst h2, congrArg Prod.snd h2⟩
      show (stepKeystroke s0 t q).nextId = s0.nextId ∧
           (stepKeystroke s0 t q).inflight.map Req.query = s0.inflight.map Req.query ∧
           (stepKeystroke s0 t q).timer = some (q, t + 250) ∧
           (stepKeystroke s0 t q).now = t
      rw [hks]
      exact ⟨rfl, abortAll_map_query _ _, rfl, rfl⟩
    | cons a2 b2 =>
      rw [List.getLast?_cons_cons] at hlast
      obtain ⟨i1, i2, i3, i4⟩ := ih (stepKeystroke s0 t q) tlast qlast hrec hlast
      refine ⟨?_, ?_, i3, i4⟩
      · exact i1.trans (by rw [hks])
      · exact i2.trans (by rw [hks]; exact abortAll_map_query _ _)

/-- C2: debounce coalescing. For any burst of keystrokes each mutating the
query to at least 2 trimmed characters, with each consecutive keystroke
arriving strictly less than the 250 ms debounce interval after the previous
one (burstOK), the keystrokes themselves issue no fetch (the id counter and
the list of issued queries are unchanged), the pending timer after the burst
carries the query of the last keystroke with deadline 250 ms after it, the
timer callback cannot run between two consecutive keystrokes of the burst
(such a firing is a no-op because its deadline has not been reached), and the
single firing after the burst issues exactly one fetch whose query is the
query value at the last keystroke. -/
theorem debounce_coalescing (s0 : Model) (b : List (ℕ × String))
    (tlast : ℕ) (qlast : String)
    (hok : burstOK s0 b = true) (hlast : b.getLast? = some (tlast, qlast)) :
    (runBurst s0 b).nextId = s0.nextId ∧
    (runBurst s0 b).inflight.map Req.query = s0.inflight.map Req.query ∧
    (runBurst s0 b).timer = some (qlast, tlast + 250) ∧
    (∀ pre t q post t2 q2, b = pre ++ (t, q) :: post → post.head? = some (t2, q2) →
      ∀ u, u ≤ t2 →
        step (runBurst s0 (pre ++ [(t, q)])) (Event.timerFire u)
          = runBurst s0 (pre ++ [(t, q)])) ∧
    (∀ u, tlast + 250 ≤ u →
      (step (runBurst s0 b) (Event.timerFire u)).inflight.map Req.query
          = s0.inflight.map Req.query ++ [qlast] ∧
      (step (runBurst s0 b) (Event.timerFire u)).nextId = s0.nextId + 1 ∧
      (step (runBurst s0 b) (Event.timerFire u)).timer = none) := by
  obtain ⟨s1nextId, s1map, s1timer, s1now⟩ := runBurst_spec b s0 tlast qlast hok hlast
  refine ⟨s1nextId, s1map, s1timer, ?_, ?_⟩
  · intro pre t q post t2 q2 hsplit hhead u hu
    subst hsplit
    obtain ⟨hok1, hok2⟩ := burstOK_append pre ((t, q) :: post) s0 hok
    simp only [burstOK, Bool.and_eq_true, decide_eq_true_eq] at hok2
    obtain ⟨⟨⟨⟨hA, hB⟩, hC⟩, hM⟩, hrec⟩ := hok2
    have hgap : t2 < t + 250 := by
      cases post with
      | nil => cases hhead
      | cons c post2 =>
        obtain ⟨t3, q3⟩ := c
        rw [List.head?_cons] at hhead
        injection hhead with h2
        obtain ⟨rfl, rfl⟩ : t3 = t2 ∧ q3 = q2 :=
          ⟨congrArg Prod.fst h2, congrArg Prod.snd h2⟩
        simpa using hM
    have hstate : runBurst s0 (pre ++ [(t, q)]) = stepKeystroke (runBurst s0 pre) t q := by
      rw [runBurst_append pre [(t, q)] s0]
      rfl
    have hks := stepKeystroke_long hA hB hC
    rw [hstate, hks]
    simp only [step]
    unfold stepTimerFire
    split
    next hnone => exact Option.noConfusion hnone
    next qv dv heq =>
      injection heq with heq2
      obtain ⟨rfl, rfl⟩ : q = qv ∧ t + 250 = dv :=
        ⟨congrArg Prod.fst heq2, congrArg Prod.snd heq2⟩
      rw [if_pos (Or.inr (lt_of_le_of_lt hu hgap))]
  · intro u hu
    have hcond : ¬ (u < (runBurst s0 b).now ∨ u < tlast + 250) := by
      rw [s1now]
      omega
    simp only [step]
    unfold stepTimerFire
    rw [s1timer]
    split
    next hnone => exact Option.noConfusion hnone
    next qv dv heq =>
      injection heq with heq2
      obtain ⟨rfl, rfl⟩ : qlast = qv ∧ tlast + 250 = dv :=
        ⟨congrArg Prod.fst heq2, congrArg Prod.snd heq2⟩
      rw [if_neg hcond]
      refine ⟨?_, ?_, rfl⟩
      · simp [List.map_append, abortAll_map_query, s1map]
      · show (runBurst s0 b).nextId + 1 = s0.nextId + 1
        rw [s1nextId]

/-- Witness for debounce_coalescing: three keystrokes Pa, Par, Pari at 0,
100, 200 ms leave one timer for Pari with deadline 450 ms, and its firing
issues exactly one fetch with query Pari. -/
theorem debounce_coalescing_witness :
    (runBurst init [(0, "Pa"), (100, "Par"), (200, "Pari")]).timer = some ("Pari", 450) ∧
    (step (runBurst init [(0, "Pa"), (100, "Par"), (200, "Pari")])
        (Event.timerFire 450)).inflight.map Req.query = ["Pari"] ∧
    (step (runBurst init [(0, "Pa"), (100, "Par"), (200, "Pari")])
        (Event.timerFire 450)).nextId = 1 := by
  have h := debounce_coalescing init [(0, "Pa"), (100, "Par"), (200, "Pari")] 200 "Pari"
      (by decide) (by decide)
  refine ⟨h.2.2.1, ?_, ?_⟩
  · exact ((h.2.2.2.2 450 (by decide)).1).trans (by decide)
  · exact ((h.2.2.2.2 450 (by decide)).2.1).trans (by decide)

/-- C3 (counterexample): the claim that isLoading is true only while the
currently-authoritative pending fetch exists and has not resolved — in
particular never when no fetch has been issued and is outstanding — fails on
the code: a single keystroke with at least 2 trimmed characters sets
isLoading=true immediately, while a fetch is only issued when the debounce
timer fires 250 ms later; in the state reached from init by the keystroke
Paris, isLoading is true and the list of issued fetches is empty. -/
theorem isLoading_claim_counterexample :
    ¬ (∀ s : Model, Reachable s → s.isLoading = true →
        ∃ r ∈ s.inflight, some r.id = s.current ∧ r.delivered = false) := by
  intro hclaim
  have h := hclaim (runTrace init [Event.keystroke 0 "Paris"])
      ⟨[Event.keystroke 0 "Paris"], rfl⟩ (by decide)
  revert h
  decide

/-- C3 (amended): in every reachable state, isLoading is true only while
either a debounce timer is pending (the window between a keystroke and its
firing, during which the code already shows the loading state) or the
controller held in abortRef belongs to an issued fetch that is unaborted and
undelivered. -/
theorem isLoading_window_invariant {s : Model} (h : Reachable s)
    (hl : s.isLoading = true) :
    s.timer ≠ none ∨
    ∃ r ∈ s.inflight, some r.id = s.current ∧ r.aborted = false ∧ r.delivered = false := by
  obtain ⟨h1, h2, h3, h4, h5⟩ := searchInv_reachable h
  exact h4 hl

/-- Witness for isLoading_window_invariant after the keystroke Pa. -/
theorem isLoading_window_invariant_witness :
    (runTrace init [Event.keystroke 0 "Pa"]).timer ≠ none ∨
    ∃ r ∈ (runTrace init [Event.keystroke 0 "Pa"]).inflight,
      some r.id = (runTrace init [Event.keystroke 0 "Pa"]).current ∧
      r.aborted = false ∧ r.delivered = false :=
  isLoading_window_invariant ⟨[Event.keystroke 0 "Pa"], rfl⟩ (by decide)

/-- C4: threshold suppression. In any reachable state, a keystroke mutating
the query to fewer than 2 trimmed characters clears SuggestionState to
results=[], isOpen=false, isLoading=false, error=null, cancels the pending
debounce timer, aborts every issued fetch (the cleanup aborts the current
controller and every older one was already aborted on supersession), and
issues no fetch (the id counter and the list of issued queries are
unchanged). -/
theorem threshold_suppression {s : Model} (hreach : Reachable s)
    (t : ℕ) (q : String) (ht : s.now ≤ t) (hq : q ≠ s.input)
    (hshort : (jsTrim q).length < 2) :
    (step s (Event.keystroke t q)).results = [] ∧
    (step s (Event.keystroke t q)).isOpen = false ∧
    (step s (Event.keystroke t q)).isLoading = false ∧
    (step s (Event.keystroke t q)).error = none ∧
    (step s (Event.keystroke t q)).timer = none ∧
    (∀ r ∈ (step s (Event.keystroke t q)).inflight, r.aborted = true) ∧
    (step s (Event.keystroke t q)).nextId = s.nextId ∧
    (step s (Event.keystroke t q)).inflight.map Req.query = s.inflight.map Req.query := by
  obtain ⟨h1, h2, h3, h4, h5⟩ := searchInv_reachable hreach
  have hks := stepKeystroke_short ht hq hshort
  simp only [step]
  rw [hks]
  exact ⟨rfl, rfl, rfl, rfl, rfl, abortAll_all_aborted h3, rfl, abortAll_map_query _ _⟩

/-- Witness for threshold_suppression at the short keystroke a from init. -/
theorem threshold_suppression_witness :
    (step init (Event.keystroke 0 "a")).results = [] ∧
    (step init (Event.keystroke 0 "a")).isOpen = false ∧
    (step init (Event.keystroke 0 "a")).isLoading = false ∧
    (step init (Event.keystroke 0 "a")).error = none ∧
    (step init (Event.keystroke 0 "a")).timer = none ∧
    (∀ r ∈ (step init (Event.keystroke 0 "a")).inflight, r.aborted = true) ∧
    (step init (Event.keystroke 0 "a")).nextId = init.nextId ∧
    (step init (Event.keystroke 0 "a")).inflight.map Req.query
      = init.inflight.map Req.query :=
  threshold_suppression ⟨[], rfl⟩ 0 "a" (by decide) (by decide) (by decide)

/-- C5: not-found is not an error. When the undelivered, unaborted fetch (the
one held in abortRef) resolves with HTTP status 404, the reconciler sets
results=[], isOpen=true, isLoading=false, error=null; and the geocode route
responds with status 404 exactly when the q parameter is present with at
least 2 trimmed characters, the upstream responded ok, and normalization
yields zero places. -/
theorem notfound_not_error :
    (∀ (s : Model) (t id : ℕ) (d : List Place) (r : Req),
      s.inflight.find? (fun x => x.id == id) = some r →
      r.aborted = false → r.delivered = false → s.now ≤ t →
      (step s (Event.deliver t id (Outcome.http 404 d))).sugg
        = ⟨[], true, false, none⟩) ∧
    (∀ (q : Option String) (up : Upstream),
      (geocodeGET q up).status = 404 ↔
        ((∃ raw, q = some raw ∧ 2 ≤ (jsTrim raw).length) ∧
         ∃ rows, up = Upstream.ok rows ∧ (rows.getD []).map normalizePlace = [])) := by
  constructor
  · intro s t id d r hfind hab hdel ht
    have h := (stepDeliver_applies (Outcome.http 404 d) hfind hdel hab ht).1
    show (stepDeliver s t id (Outcome.http 404 d)).sugg = ⟨[], true, false, none⟩
    rw [h]
    rfl
  · intro q up
    cases q with
    | none =>
      constructor
      · intro hst
        have h2 : (400 : ℕ) = 404 := hst
        exact absurd h2 (by decide)
      · rintro ⟨⟨raw2, hraw2, _⟩, _⟩
        exact Option.noConfusion hraw2
    | some raw =>
      by_cases hlen : (jsTrim raw).length < 2
      · constructor
        · intro hst
          have hgeq : geocodeGET (some raw) up = GeoResponse.err 400 "bad_request"
              "Missing ?q=<place> or must be at least 2 characters." := by
            simp [geocodeGET, hlen]
          rw [hgeq] at hst
          have h2 : (400 : ℕ) = 404 := hst
          exact absurd h2 (by decide)
        · rintro ⟨⟨raw2, hraw2, hlen2⟩, _⟩
          injection hraw2 with h2
          subst h2
          omega
      · cases up with
        | notOk st =>
          constructor
          · intro hst
            have hgeq : geocodeGET (some raw) (Upstream.notOk st)
                = GeoResponse.err 502 "upstream_failed" ("Geocoding failed: " ++ toString st) := by
              simp [geocodeGET, hlen]
            rw [hgeq] at hst
            have h2 : (502 : ℕ) = 404 := hst
            exact absurd h2 (by decide)
          · rintro ⟨_, rows, hrows, _⟩
            exact Upstream.noConfusion hrows
        | ok rows =>
          by_cases hemp : ((rows.getD []).map normalizePlace).isEmpty = true
          · have hgeq : geocodeGET (some raw) (Upstream.ok rows)
                = GeoResponse.err 404 "not_found" ("No places for \"" ++ jsTrim raw ++ "\"") := by
              simp [geocodeGET, hlen, hemp]
            constructor
            · intro _
              exact ⟨⟨raw, rfl, by omega⟩, rows, rfl, List.isEmpty_iff.mp hemp⟩
            · intro _
              rw [hgeq]
              rfl
          · have hgeq : geocodeGET (some raw) (Upstream.ok rows)
                = GeoResponse.ok ((rows.getD []).map normalizePlace) := by
              simp [geocodeGET, hlen, hemp]
            constructor
            · intro hst
              rw [hgeq] at hst
              have h2 : (200 : ℕ) = 404 := hst
              exact absurd h2 (by decide)
            · rintro ⟨_, rows2, hrows2, hemp2⟩
              injection hrows2 with h2
              subst h2
              exact absurd (show ((rows.getD []).map normalizePlace).isEmpty = true from
                by rw [hemp2]; rfl) hemp

/-- Witness for notfound_not_error: a 404 delivery to the live request issued
for Par, and the route on query Paris with an ok upstream carrying no
rows. -/
theorem notfound_not_error_witness :
    (step (runTrace init [Event.keystroke 0 "Par", Event.timerFire 250])
        (Event.deliver 300 0 (Outcome.http 404 []))).sugg = ⟨[], true, false, none⟩ ∧
    (geocodeGET (some "Paris") (Upstream.ok (some []))).status = 404 := by
  constructor
  · exact notfound_not_error.1 _ 300 0 [] ⟨0, "Par", false, false⟩
      (by decide) (by decide) (by decide) (by decide)
  · exact (notfound_not_error.2 (some "Paris") (Upstream.ok (some []))).mpr
      ⟨⟨"Paris", rfl, by decide⟩, some [], rfl, rfl⟩

/-- C6: superseded outcomes are silently discarded. When the continuation of
a fetch whose controller has been aborted runs — whatever outcome its
response carried, including a late-arriving real response — none of results,
isOpen, isLoading, error changes: the catch recognizes the AbortError and
returns without mutating state. -/
theorem superseded_silent {s : Model} {t id : ℕ} {out : Outcome} {r : Req}
    (hfind : s.inflight.find? (fun x => x.id == id) = some r)
    (hab : r.aborted = true) :
    (step s (Event.deliver t id out)).results = s.results ∧
    (step s (Event.deliver t id out)).isOpen = s.isOpen ∧
    (step s (Event.deliver t id out)).isLoading = s.isLoading ∧
    (step s (Event.deliver t id out)).error = s.error := by
  simp only [step]
  unfold stepDeliver
  split
  · exact ⟨rfl, rfl, rfl, rfl⟩
  · split
    · exact ⟨rfl, rfl, rfl, rfl⟩
    next r2 heq =>
      rw [hfind] at heq
      injection heq with h2
      subst h2
      split
      · exact ⟨rfl, rfl, rfl, rfl⟩
      · exact ⟨rfl, rfl, rfl, rfl⟩

/-- Witness for superseded_silent: the request issued for Pa was aborted by
the keystroke Par; its late network outcome is discarded without any
SuggestionState change. -/
theorem superseded_silent_witness :
    (step (runTrace init
        [Event.keystroke 0 "Pa", Event.timerFire 250, Event.keystroke 300 "Par"])
        (Event.deliver 400 0 Outcome.netError)).results
      = (runTrace init
        [Event.keystroke 0 "Pa", Event.timerFire 250, Event.keystroke 300 "Par"]).results ∧
    (step (runTrace init
        [Event.keystroke 0 "Pa", Event.timerFire 250, Event.keystroke 300 "Par"])
        (Event.deliver 400 0 Outcome.netError)).isOpen
      = (runTrace init
        [Event.keystroke 0 "Pa", Event.timerFire 250, Event.keystroke 300 "Par"]).isOpen ∧
    (step (runTrace init
        [Event.keystroke 0 "Pa", Event.timerFire 250, Event.keystroke 300 "Par"])
        (Event.deliver 400 0 Outcome.netError)).isLoading
      = (runTrace init
        [Event.keystroke 0 "Pa", Event.timerFire 250, Event.keystroke 300 "Par"]).isLoading ∧
    (step (runTrace init
        [Event.keystroke 0 "Pa", Event.timerFire 250, Event.keystroke 300 "Par"])
        (Event.deliver 400 0 Outcome.netError)).error
      = (runTrace init
        [Event.keystroke 0 "Pa", Event.timerFire 250, Event.keystroke 300 "Par"]).error :=
  @superseded_silent
    (runTrace init [Event.keystroke 0 "Pa", Event.timerFire 250, Event.keystroke 300 "Par"])
    400 0 Outcome.netError ⟨0, "Pa", true, false⟩ (by decide) (by decide)

/-- C7: failure handling. When the undelivered, unaborted fetch resolves with
an HTTP status that is neither 400 nor 404 nor a success status (200 to 299),
the reconciler sets results=[], isOpen=true, isLoading=false and the
status-specific message Search failed (status).; when the fetch fails at the
transport level, it sets the same fields with the message Network error.
Please try again. -/
theorem failure_reconciliation :
    (∀ (s : Model) (t id stat : ℕ) (d : List Place) (r : Req),
      s.inflight.find? (fun x => x.id == id) = some r →
      r.aborted = false → r.delivered = false → s.now ≤ t →
      stat ≠ 400 → stat ≠ 404 → ¬ (200 ≤ stat ∧ stat ≤ 299) →
      (step s (Event.deliver t id (Outcome.http stat d))).sugg
        = ⟨[], true, false, some ("Search failed (" ++ toString stat ++ ").")⟩) ∧
    (∀ (s : Model) (t id : ℕ) (r : Req),
      s.inflight.find? (fun x => x.id == id) = some r →
      r.aborted = false → r.delivered = false → s.now ≤ t →
      (step s (Event.deliver t id Outcome.netError)).sugg
        = ⟨[], true, false, some "Network error. Please try again."⟩) := by
  constructor
  · intro s t id stat d r hfind hab hdel ht h400 h404 hok
    have h := (stepDeliver_applies (Outcome.http stat d) hfind hdel hab ht).1
    show (stepDeliver s t id (Outcome.http stat d)).sugg = _
    rw [h]
    simp only [reconcile]
    rw [if_neg h400, if_neg h404, if_neg hok]
  · intro s t id r hfind hab hdel ht
    have h := (stepDeliver_applies Outcome.netError hfind hdel hab ht).1
    show (stepDeliver s t id Outcome.netError).sugg = _
    rw [h]
    rfl

/-- Witness for failure_reconciliation: a 502 delivery and a transport
failure delivered to the live request issued for Par. -/
theorem failure_reconciliation_witness :
    (step (runTrace init [Event.keystroke 0 "Par", Event.timerFire 250])
        (Event.deliver 300 0 (Outcome.http 502 []))).sugg
      = ⟨[], true, false, some "Search failed (502)."⟩ ∧
    (step (runTrace init [Event.keystroke 0 "Par", Event.timerFire 250])
        (Event.deliver 300 0 Outcome.netError)).sugg
      = ⟨[], true, false, some "Network error. Please try again."⟩ := by
  constructor
  · have h := failure_reconciliation.1
        (runTrace init [Event.keystroke 0 "Par", Event.timerFire 250])
        300 0 502 [] ⟨0, "Par", false, false⟩
        (by decide) (by decide) (by decide) (by decide) (by decide) (by decide) (by decide)
    exact h.trans (by decide)
  · exact failure_reconciliation.2
      (runTrace init [Event.keystroke 0 "Par", Event.timerFire 250])
      300 0 ⟨0, "Par", false, false⟩
      (by decide) (by decide) (by decide) (by decide)

/-- C8 (counterexample): the claim formats the pick label as city, then
region whenever region is neither null nor undefined, then country; the code
additionally drops empty-string components through filter(Boolean). For the
place with city Paris, region the empty string and country France, picking
sets the input to Paris, France while the label claimed by the specification
sentence is Paris, , France. -/
theorem pick_label_counterexample :
    (step init (Event.pick 0 emptyRegionPlace)).input ≠ specFormatLabel emptyRegionPlace := by
  decide

/-- C8 (amended): handlePick sets the query text to the label built from the
non-empty components among city, region (when neither null nor undefined)
and country, joined by a comma and a space, closes the dropdown and invokes
onSelect with exactly the picked place; on the Paris example the label is
Paris, Île-de-France, France, and an empty-string region is dropped. -/
theorem pick_semantics :
    (∀ (s : Model) (t : ℕ) (p : Place), s.now ≤ t →
      (step s (Event.pick t p)).input = formatPlace p ∧
      (step s (Event.pick t p)).isOpen = false ∧
      (step s (Event.pick t p)).picked = s.picked ++ [p]) ∧
    formatPlace parisPlace = "Paris, Île-de-France, France" ∧
    formatPlace emptyRegionPlace = "Paris, France" := by
  refine ⟨?_, by decide, by decide⟩
  intro s t p ht
  simp only [step, stepPick]
  rw [if_neg (Nat.not_lt.mpr ht)]
  split
  next hlab => exact ⟨hlab.symm, rfl, rfl⟩
  next hlab =>
    refine ⟨?_, rfl, ?_⟩
    · show (inputEffect { s with now := t } (formatPlace p)).input = formatPlace p
      simp only [inputEffect]
      split
      · rfl
      · rfl
    · show (inputEffect { s with now := t } (formatPlace p)).picked ++ [p] = s.picked ++ [p]
      simp only [inputEffect]
      split
      · rfl
      · rfl

/-- Witness for pick_semantics at the Paris example from init. -/
theorem pick_semantics_witness :
    (step init (Event.pick 0 parisPlace)).input = formatPlace parisPlace ∧
    (step init (Event.pick 0 parisPlace)).isOpen = false ∧
    (step init (Event.pick 0 parisPlace)).picked = init.picked ++ [parisPlace] :=
  pick_semantics.1 init 0 parisPlace (by decide)

/-- C9: error and non-empty results are mutually exclusive. In every
reachable state a non-null error comes with empty results, and every single
transition — keystrokes, timer firings, deliveries, picks, blur and focus —
preserves the exclusivity from any state satisfying it: a transition that
installs a non-null error clears results, and one that installs results
clears the error. -/
theorem error_results_exclusive :
    (∀ s : Model, Reachable s → s.error ≠ none → s.results = []) ∧
    (∀ (s : Model) (e : Event), (s.error ≠ none → s.results = []) →
      ((step s e).error ≠ none → (step s e).results = [])) := by
  constructor
  · intro s hreach
    obtain ⟨h1, h2, h3, h4, h5⟩ := searchInv_reachable hreach
    exact h5
  · exact error_results_step

/-- Witness for error_results_exclusive: after a transport failure the error
is set and the results are empty. -/
theorem error_results_exclusive_witness :
    (runTrace init [Event.keystroke 0 "Par", Event.timerFire 250,
        Event.deliver 300 0 Outcome.netError]).results = [] :=
  error_results_exclusive.1 _
    ⟨[Event.keystroke 0 "Par", Event.timerFire 250,
      Event.deliver 300 0 Outcome.netError], rfl⟩ (by decide)

/-- C10: count clamping at the geocode endpoint. The effective count sent
upstream is the numeric count clamped into the inclusive range 1..10: a
missing, non-numeric (NaN) or zero count becomes 5 (the falsy fallback
applies before clamping), a numeric count above 10 becomes 10 rather than 5,
a nonzero numeric count below 1 becomes 1, and a count already in 1..10 is
passed through unchanged. -/
theorem count_clamping :
    effectiveCount none = 5 ∧
    effectiveCount (some none) = 5 ∧
    effectiveCount (some (some 0)) = 5 ∧
    (∀ v : ℚ, 10 < v → effectiveCount (some (some v)) = 10) ∧
    (∀ v : ℚ, v < 1 → v ≠ 0 → effectiveCount (some (some v)) = 1) ∧
    (∀ v : ℚ, 1 ≤ v → v ≤ 10 → effectiveCount (some (some v)) = v) := by
  refine ⟨by decide, by decide, by decide, ?_, ?_, ?_⟩
  · intro v hv
    simp only [effectiveCount, Option.getD]
    rw [if_neg (by intro h; rw [h] at hv; norm_num at hv)]
    rw [min_eq_left (le_of_lt hv), max_eq_right (by norm_num : (1 : ℚ) ≤ 10)]
  · intro v hv hv0
    simp only [effectiveCount, Option.getD]
    rw [if_neg hv0]
    rw [min_eq_right (le_of_lt (lt_of_lt_of_le hv (by norm_num)))]
    rw [max_eq_left (le_of_lt hv)]
  · intro v h1 h10
    simp only [effectiveCount, Option.getD]
    rw [if_neg (by intro h; rw [h] at h1; norm_num at h1)]
    rw [min_eq_right h10, max_eq_right h1]

/-- Witness for count_clamping: 99 clamps to 10, -3 clamps to 1, 7 passes
through. -/
theorem count_clamping_witness :
    effectiveCount (some (some 99)) = 10 ∧
    effectiveCount (some (some (-3))) = 1 ∧
    effectiveCount (some (some 7)) = 7 :=
  ⟨count_clamping.2.2.2.1 99 (by norm_num),
   count_clamping.2.2.2.2.1 (-3) (by norm_num) (by norm_num),
   count_clamping.2.2.2.2.2 7 (by norm_num) (by norm_num)⟩
